import Mathlib

/-!
Verification of the kime XIM handler core (src/xim/src/handler.rs) and the
engine CFFI adapter (src/engine-cffi/src/lib.rs), as a shallow embedding.

Characters are Lean `Char`; machine integers are `Nat` with explicit masks
where the source masks bits.  Protocol/windowing output calls (commit,
preedit_draw, set_event_mask, window clean) are recorded in an effect trace;
paths that `unwrap()` on a registry miss in the source are modelled as
`Option` results, `none` standing for the panic.
-/

namespace Kime

/-- Embeds `KimeInputResultType` — the FFI result-kind enum re-exported by
src/engine-cffi/src/lib.rs and matched in handler.rs. -/
inductive KimeInputResultType
  | Bypass
  | Consume
  | ClearPreedit
  | CommitBypass
  | Commit
  | CommitCommit
  | CommitPreedit
  | Preedit
  deriving DecidableEq, Repr

/-- Embeds `InputResult` from src/engine-cffi/src/lib.rs: result kind plus two
characters. -/
structure InputResult where
  ty : KimeInputResultType
  char1 : Char
  char2 : Char
  deriving DecidableEq, Repr

/-- Modelled from the spec: the native composition engine behind
`kime_engine_press_key` / `kime_engine_reset` is not under src/ (only its FFI
declarations are).  Per §4.1 it is an opaque stateful black box: each
`press_key` yields a result and moves the internal state, and the state keeps
an optional partially composed unit that `reset` flushes.  We model the
opaque state as a script of future press results (each paired with the
buffered codepoint the press leaves behind) together with the current
buffered codepoint, `0` meaning empty as in the C ABI where
`kime_engine_reset` returns `0` for "nothing buffered". -/
structure KimeFfiEngine where
  script : List (InputResult × Nat)
  buf : Nat
  deriving DecidableEq, Repr

/-- Modelled from the spec: `kime_engine_press_key` consumes the next script
entry; per §4.1 it never fails and unrecognized input degrades to Bypass
(here: an exhausted script). -/
def kime_engine_press_key (e : KimeFfiEngine) : InputResult × KimeFfiEngine :=
  match e.script with
  | [] => (⟨.Bypass, Char.ofNat 0, Char.ofNat 0⟩, e)
  | (r, b) :: rest => (r, ⟨rest, b⟩)

/-- Modelled from the spec: `kime_engine_reset` returns the buffered
codepoint (`0` when empty) and clears the buffer (§4.1: "flushes any
partially composed unit, returns it if non-empty, clears state"). -/
def kime_engine_reset (e : KimeFfiEngine) : Nat × KimeFfiEngine :=
  (e.buf, { e with buf := 0 })

/-- Embeds `InputEngine` from src/engine-cffi/src/lib.rs: owns one native engine
handle. -/
structure InputEngine where
  engine : KimeFfiEngine
  deriving DecidableEq, Repr

/-- Embeds `Config` from src/engine-cffi/src/lib.rs, restricted to the two accessors
it exposes (`xim_font_name`, `gtk_commit_english`); the native config handle
is opaque and read-only. -/
structure Config where
  xim_font_name : String
  gtk_commit_english : Bool
  deriving DecidableEq, Repr

/-- Embeds `InputEngine::press_key` (src/engine-cffi/src/lib.rs lines 29-40): calls
the native engine and converts the raw codepoints to characters. -/
def InputEngine.press_key (e : InputEngine) (_config : Config) (_hardware_code : Nat)
    (_state : Nat) : InputResult × InputEngine :=
  match kime_engine_press_key e.engine with
  | (ret, ng) => (ret, ⟨ng⟩)

/-- Embeds `InputEngine::reset` (src/engine-cffi/src/lib.rs lines 42-49): `0` from
the native engine maps to `none`, anything else to the character. -/
def InputEngine.reset (e : InputEngine) : Option Char × InputEngine :=
  match kime_engine_reset e.engine with
  | (0, ng) => (none, ⟨ng⟩)
  | (n, ng) => (some (Char.ofNat n), ⟨ng⟩)

/-- Modelled from the spec: `PeWindow` (src/xim/src/pe_window.rs is not under
src/): an overlay window keyed by a window identifier, displaying one preedit
glyph (§4.2).  `set_preedit` updates the glyph; `expose` repaints and
`configure_notify` repositions, neither changing the identifier or the
glyph; `clean` releases the window (recorded as a trace effect by callers). -/
structure PeWindow where
  window : Nat
  preedit : Option Char
  deriving DecidableEq, Repr

/-- Modelled from the spec: `PeWindow::new` — the windowing system hands out
a fresh window identifier; the caller supplies it here. -/
def PeWindow.new (fresh : Nat) : PeWindow :=
  { window := fresh, preedit := none }

def PeWindow.set_preedit (w : PeWindow) (ch : Char) : PeWindow :=
  { w with preedit := some ch }

def PeWindow.expose (w : PeWindow) : PeWindow := w

def PeWindow.configure_notify (w : PeWindow) : PeWindow := w

/-- The preedit-window registry `AHashMap<NonZeroU32, PeWindow>` modelled as
an association list. -/
abbrev Registry := List (Nat × PeWindow)

def regFind (r : Registry) (k : Nat) : Option PeWindow :=
  match r with
  | [] => none
  | (k2, w) :: rest => if k2 = k then some w else regFind rest k

def regInsert (r : Registry) (k : Nat) (w : PeWindow) : Registry :=
  match r with
  | [] => [(k, w)]
  | (k2, w2) :: rest => if k2 = k then (k, w) :: rest else (k2, w2) :: regInsert rest k w

def regErase (r : Registry) (k : Nat) : Registry :=
  match r with
  | [] => []
  | (k2, w2) :: rest => if k2 = k then regErase rest k else (k2, w2) :: regErase rest k

def regKeys (r : Registry) : List Nat :=
  r.map Prod.fst

/-- Embeds `KimeData` (handler.rs lines 16-19): per-context engine plus an optional
back-reference to a preedit window, by identifier. -/
structure KimeData where
  engine : InputEngine
  pe : Option Nat
  deriving DecidableEq, Repr

/-- Embeds `KimeData::new` (handler.rs lines 22-27). -/
def KimeData.new : KimeData :=
  { engine := ⟨⟨[], 0⟩⟩, pe := none }

/-- XIM input-style bit flags used by handler.rs (values are the standard
X11 XIMStyle bits used by the xim crate). -/
def InputStyle.PREEDIT_AREA : Nat := 0x0001

def InputStyle.PREEDIT_CALLBACKS : Nat := 0x0002

def InputStyle.PREEDIT_POSITION : Nat := 0x0004

def InputStyle.PREEDIT_NOTHING : Nat := 0x0008

def InputStyle.PREEDIT_NONE : Nat := 0x0010

def InputStyle.STATUS_AREA : Nat := 0x0100

def InputStyle.STATUS_CALLBACKS : Nat := 0x0200

def InputStyle.STATUS_NOTHING : Nat := 0x0400

def InputStyle.STATUS_NONE : Nat := 0x0800

/-- Embeds `InputStyle::contains` on bitflags. -/
def styleContains (s f : Nat) : Bool := s &&& f == f

/-- Embeds `xim::InputContext<KimeData>` restricted to what handler.rs reads:
the negotiated input style and the user data. -/
structure InputContext where
  input_style : Nat
  user_data : KimeData
  deriving DecidableEq, Repr

/-- Embeds `KimeHandler` (handler.rs lines 30-34). -/
structure KimeHandler where
  preedit_windows : Registry
  config : Config
  screen_num : Nat
  deriving DecidableEq, Repr

/-- An output effect of one handler call: a protocol output primitive or a
window teardown, in the order the source emits them. -/
inductive Eff
  | commit (ch : Char)
  | preeditDraw (ch : Char)
  | createWindow (id : Nat)
  | clean (id : Nat)
  | setEventMask
  deriving DecidableEq, Repr

/-- Embeds `x11rb` `KeyPressEvent` restricted to the fields handler.rs reads. -/
structure KeyPressEvent where
  response_type : Nat
  detail : Nat
  state : Nat
  deriving DecidableEq, Repr

/-- Embeds `KEY_PRESS_EVENT` response-type constant (X11 KeyPress opcode). -/
def KEY_PRESS_EVENT : Nat := 2

/-- The result of one handler call: updated handler, updated context, and
the trace of output effects. -/
structure HandlerStep where
  handler : KimeHandler
  ic : InputContext
  out : List Eff
  deriving DecidableEq, Repr

/-- Embeds `KimeHandler::expose` (handler.rs lines 47-53): repaint on damage; a
lookup miss (or a zero window id) is a benign no-op. -/
def KimeHandler.expose (h : KimeHandler) (window : Nat) : KimeHandler :=
  if window ≠ 0 then
    match regFind h.preedit_windows window with
    | some w => { h with preedit_windows := regInsert h.preedit_windows window w.expose }
    | none => h
  else h

/-- Embeds `KimeHandler::configure_notify` (handler.rs lines 55-61). -/
def KimeHandler.configure_notify (h : KimeHandler) (window : Nat) : KimeHandler :=
  if window ≠ 0 then
    match regFind h.preedit_windows window with
    | some w =>
      { h with preedit_windows := regInsert h.preedit_windows window w.configure_notify }
    | none => h
  else h

/-- Embeds `KimeHandler::preedit` (handler.rs lines 63-96): on-the-spot styles get a
`preedit_draw` callback; off-the-spot updates the existing window
(`unwrap()` on the registry lookup — `none` models the panic) or creates a
fresh one and records its id in the context. -/
def KimeHandler.preedit (h : KimeHandler) (ic : InputContext) (ch : Char) (fresh : Nat) :
    Option HandlerStep :=
  if styleContains ic.input_style InputStyle.PREEDIT_CALLBACKS then
    some ⟨h, ic, [Eff.preeditDraw ch]⟩
  else
    match ic.user_data.pe with
    | some pe =>
      match regFind h.preedit_windows pe with
      | none => none
      | some w =>
        some ⟨{ h with preedit_windows := regInsert h.preedit_windows pe (w.set_preedit ch) },
              ic, []⟩
    | none =>
      let pe := (PeWindow.new fresh).set_preedit ch
      some ⟨{ h with preedit_windows := regInsert h.preedit_windows pe.window pe },
            { ic with user_data := { ic.user_data with pe := some pe.window } },
            [Eff.createWindow pe.window]⟩

/-- Embeds `KimeHandler::clear_preedit` (handler.rs lines 111-125): takes the
context's window reference; a registry miss is silently skipped (`if let`),
a hit removes the entry and cleans the window. -/
def KimeHandler.clear_preedit (h : KimeHandler) (ic : InputContext) : HandlerStep :=
  match ic.user_data.pe with
  | none => ⟨h, ic, []⟩
  | some pe =>
    let ic1 := { ic with user_data := { ic.user_data with pe := none } }
    match regFind h.preedit_windows pe with
    | none => ⟨h, ic1, []⟩
    | some _ =>
      ⟨{ h with preedit_windows := regErase h.preedit_windows pe }, ic1, [Eff.clean pe]⟩

/-- Embeds `KimeHandler::commit` (handler.rs lines 127-137): sends the character to
the client. -/
def KimeHandler.commit (h : KimeHandler) (ic : InputContext) (ch : Char) : HandlerStep :=
  ⟨h, ic, [Eff.commit ch]⟩

/-- Embeds `KimeHandler::reset` (handler.rs lines 98-109): flush the engine; when a
character comes back, clear the preedit then commit it. -/
def KimeHandler.reset (h : KimeHandler) (ic : InputContext) : HandlerStep :=
  match ic.user_data.engine.reset with
  | (none, e1) => ⟨h, { ic with user_data := { ic.user_data with engine := e1 } }, []⟩
  | (some c, e1) =>
    let ic1 := { ic with user_data := { ic.user_data with engine := e1 } }
    let s1 := h.clear_preedit ic1
    let s2 := s1.handler.commit s1.ic c
    ⟨s2.handler, s2.ic, s1.out ++ s2.out⟩

/-- Embeds `handle_connect` (handler.rs lines 167-172): Ok, no effect. -/
def KimeHandler.handle_connect (h : KimeHandler) : KimeHandler × List Eff := (h, [])

/-- Embeds `handle_set_ic_values` (handler.rs lines 174-180): Ok, no effect. -/
def KimeHandler.handle_set_ic_values (h : KimeHandler) (ic : InputContext) : HandlerStep :=
  ⟨h, ic, []⟩

/-- Embeds `handle_create_ic` (handler.rs lines 182-200): registers the key event
mask; no state change. -/
def KimeHandler.handle_create_ic (h : KimeHandler) (ic : InputContext) : HandlerStep :=
  ⟨h, ic, [Eff.setEventMask]⟩

/-- Embeds `handle_reset_ic` (handler.rs lines 202-213): resets the engine and
answers with the flushed character as a string, or the empty string. -/
def KimeHandler.handle_reset_ic (h : KimeHandler) (ic : InputContext) :
    HandlerStep × String :=
  match ic.user_data.engine.reset with
  | (none, e1) =>
    (⟨h, { ic with user_data := { ic.user_data with engine := e1 } }, []⟩, "")
  | (some c, e1) =>
    (⟨h, { ic with user_data := { ic.user_data with engine := e1 } }, []⟩, String.mk [c])

/-- Embeds `handle_forward_event` (handler.rs lines 215-273): skip releases; flush
and bypass on any modifier beyond a lone shift (`state & !0x1 != 0` on the
u16 state field); otherwise consult the engine and react per result kind.
The boolean is the consumed flag (`Ok(false)` forwards the key). -/
def KimeHandler.handle_forward_event (h : KimeHandler) (ic : InputContext)
    (xev : KeyPressEvent) (fresh : Nat) : Option (HandlerStep × Bool) :=
  if xev.response_type ≠ KEY_PRESS_EVENT then
    some (⟨h, ic, []⟩, false)
  else if xev.state &&& 0xFFFE ≠ 0 then
    some (h.reset ic, false)
  else
    match ic.user_data.engine.press_key h.config xev.detail xev.state with
    | (ret, e1) =>
      let ic1 := { ic with user_data := { ic.user_data with engine := e1 } }
      match ret.ty with
      | .Bypass => some (⟨h, ic1, []⟩, false)
      | .Consume => some (⟨h, ic1, []⟩, true)
      | .ClearPreedit => some (h.clear_preedit ic1, true)
      | .CommitBypass =>
        let s1 := h.commit ic1 ret.char1
        let s2 := s1.handler.clear_preedit s1.ic
        some (⟨s2.handler, s2.ic, s1.out ++ s2.out⟩, false)
      | .Commit =>
        let s1 := h.commit ic1 ret.char1
        let s2 := s1.handler.clear_preedit s1.ic
        some (⟨s2.handler, s2.ic, s1.out ++ s2.out⟩, true)
      | .CommitCommit =>
        let s1 := h.commit ic1 ret.char1
        let s2 := s1.handler.commit s1.ic ret.char2
        let s3 := s2.handler.clear_preedit s2.ic
        some (⟨s3.handler, s3.ic, s1.out ++ s2.out ++ s3.out⟩, true)
      | .CommitPreedit =>
        let s1 := h.commit ic1 ret.char1
        match s1.handler.preedit s1.ic ret.char2 fresh with
        | none => none
        | some s2 => some (⟨s2.handler, s2.ic, s1.out ++ s2.out⟩, true)
      | .Preedit =>
        match h.preedit ic1 ret.char1 fresh with
        | none => none
        | some s => some (s, true)

/-- Embeds `handle_destory_ic` (handler.rs lines 275-287): if the context owns a
window, `remove().unwrap()` it from the registry (`none` models the panic)
and clean it; no engine flush, no commit. -/
def KimeHandler.handle_destory_ic (h : KimeHandler) (ic : InputContext) :
    Option (KimeHandler × List Eff) :=
  match ic.user_data.pe with
  | none => some (h, [])
  | some pe =>
    match regFind h.preedit_windows pe with
    | none => none
    | some _ => some ({ h with preedit_windows := regErase h.preedit_windows pe }, [Eff.clean pe])

/-- Embeds `handle_preedit_start` (handler.rs lines 289-295): Ok, no effect. -/
def KimeHandler.handle_preedit_start (h : KimeHandler) (ic : InputContext) : HandlerStep :=
  ⟨h, ic, []⟩

/-- Embeds `handle_caret` (handler.rs lines 297-304): Ok, no effect. -/
def KimeHandler.handle_caret (h : KimeHandler) (ic : InputContext) (_position : Int) :
    HandlerStep :=
  ⟨h, ic, []⟩

/-- Embeds `handle_set_focus` (handler.rs lines 306-312): Ok, no effect. -/
def KimeHandler.handle_set_focus (h : KimeHandler) (ic : InputContext) : HandlerStep :=
  ⟨h, ic, []⟩

/-- Embeds `handle_unset_focus` (handler.rs lines 314-320): flush via `reset`. -/
def KimeHandler.handle_unset_focus (h : KimeHandler) (ic : InputContext) : HandlerStep :=
  h.reset ic

/-- The context/registry consistency invariant: whenever the context claims a
window, the registry has an entry for it. -/
def handlerInv (h : KimeHandler) (ic : InputContext) : Bool :=
  match ic.user_data.pe with
  | none => true
  | some id => (regFind h.preedit_windows id).isSome

/-- Modelled from the spec: §4.1 "show/update preedit" — inline styles
delegate to the client via the preedit-draw primitive; an overlay context
already composing updates that same window (a registry miss is a contract
violation, fatal per §7); an idle overlay context gets a fresh window
showing the character, recorded by reference. -/
def specShowPreedit (h : KimeHandler) (ic : InputContext) (ch : Char) (fresh : Nat) :
    Option HandlerStep :=
  if styleContains ic.input_style InputStyle.PREEDIT_CALLBACKS then
    some ⟨h, ic, [Eff.preeditDraw ch]⟩
  else
    match ic.user_data.pe with
    | some id =>
      match regFind h.preedit_windows id with
      | none => none
      | some w =>
        some ⟨{ h with preedit_windows := regInsert h.preedit_windows id (w.set_preedit ch) },
              ic, []⟩
    | none =>
      some ⟨{ h with preedit_windows := regInsert h.preedit_windows fresh ⟨fresh, some ch⟩ },
            { ic with user_data := { ic.user_data with pe := some fresh } },
            [Eff.createWindow fresh]⟩

/-- Modelled from the spec: §4.1 "destroy/cancel preedit, go Idle" — an
overlay window owned by the context is removed from the registry and
cleaned, and the reference dropped; a registry miss while the context
claims a window is fatal per §7. -/
def specDropPreedit (h : KimeHandler) (ic : InputContext) : Option HandlerStep :=
  match ic.user_data.pe with
  | none => some ⟨h, ic, []⟩
  | some id =>
    match regFind h.preedit_windows id with
    | none => none
    | some _ =>
      some ⟨{ h with preedit_windows := regErase h.preedit_windows id },
            { ic with user_data := { ic.user_data with pe := none } },
            [Eff.clean id]⟩

/-- Modelled from the spec: the §4.1 reaction table, acting on the context as
it stands after the engine consumed the keystroke.  Bypass forwards with no
further action; Consume swallows; ClearPreedit drops the preedit; the commit
kinds emit their commits in order before the preedit action; CommitPreedit
and Preedit show the new preedit. -/
def specTableReaction (h : KimeHandler) (ic : InputContext) (r : InputResult) (fresh : Nat) :
    Option (HandlerStep × Bool) :=
  match r.ty with
  | .Bypass => some (⟨h, ic, []⟩, false)
  | .Consume => some (⟨h, ic, []⟩, true)
  | .ClearPreedit => (specDropPreedit h ic).map fun s => (s, true)
  | .CommitBypass =>
    (specDropPreedit h ic).map fun s =>
      (⟨s.handler, s.ic, Eff.commit r.char1 :: s.out⟩, false)
  | .Commit =>
    (specDropPreedit h ic).map fun s =>
      (⟨s.handler, s.ic, Eff.commit r.char1 :: s.out⟩, true)
  | .CommitCommit =>
    (specDropPreedit h ic).map fun s =>
      (⟨s.handler, s.ic, Eff.commit r.char1 :: Eff.commit r.char2 :: s.out⟩, true)
  | .CommitPreedit =>
    (specShowPreedit h ic r.char2 fresh).map fun s =>
      (⟨s.handler, s.ic, Eff.commit r.char1 :: s.out⟩, true)
  | .Preedit =>
    (specShowPreedit h ic r.char1 fresh).map fun s => (s, true)

/-- One inbound protocol event on a live context, as dispatched by the
`ServerHandler` impl (context destruction ends the context and is kept as a
separate operation). -/
inductive Event
  | connect
  | createIc
  | setIcValues
  | resetIc
  | forward (xev : KeyPressEvent) (fresh : Nat)
  | setFocus
  | unsetFocus
  | preeditStart
  | caret (pos : Int)
  | exposeWin (window : Nat)
  | configNotify (window : Nat)
  deriving DecidableEq, Repr

/-- Classifier used to state the key-release frame property: an event is a
key-release forward event. -/
def Event.isRelease : Event → Bool
  | .forward xe _ => xe.response_type != KEY_PRESS_EVENT
  | _ => false

/-- Dispatch of one event to the corresponding handler callback; `none`
models a panic inside the callback. -/
def stepEvent (h : KimeHandler) (ic : InputContext) : Event → Option HandlerStep
  | .connect => some ⟨h.handle_connect.1, ic, h.handle_connect.2⟩
  | .createIc => some (h.handle_create_ic ic)
  | .setIcValues => some (h.handle_set_ic_values ic)
  | .resetIc => some (h.handle_reset_ic ic).1
  | .forward xev fresh => (h.handle_forward_event ic xev fresh).map Prod.fst
  | .setFocus => some (h.handle_set_focus ic)
  | .unsetFocus => some (h.handle_unset_focus ic)
  | .preeditStart => some (h.handle_preedit_start ic)
  | .caret pos => some (h.handle_caret ic pos)
  | .exposeWin w => some ⟨h.expose w, ic, []⟩
  | .configNotify w => some ⟨h.configure_notify w, ic, []⟩

/-- Runs a sequence of events on one context, accumulating the effect
trace; `none` as soon as one callback panics. -/
def runEvents (h : KimeHandler) (ic : InputContext) : List Event → Option HandlerStep
  | [] => some ⟨h, ic, []⟩
  | e :: rest =>
    match stepEvent h ic e with
    | none => none
    | some s =>
      match runEvents s.handler s.ic rest with
      | none => none
      | some s2 => some ⟨s2.handler, s2.ic, s.out ++ s2.out⟩

/-- Sample configuration used by the concrete instances below. -/
def cfg0 : Config := ⟨"D2Coding", false⟩

/-- Sample handler owning one preedit window with id 5 displaying 'ㄴ'. -/
def hWith5 : KimeHandler := ⟨[(5, ⟨5, some 'ㄴ'⟩)], cfg0, 0⟩

/-- Sample handler with an empty registry. -/
def hEmpty : KimeHandler := ⟨[], cfg0, 0⟩

/-- Sample overlay-style context (PREEDIT_POSITION | STATUS_NOTHING) that
owns window 5 and has 'ㄴ' buffered in the engine. -/
def icOwn5 : InputContext := ⟨0x0404, ⟨⟨⟨[], 0x3134⟩⟩, some 5⟩⟩

/-- Sample overlay-style context with a dangling window reference 9 (absent
from any registry) and a scripted ClearPreedit result. -/
def icGhost : InputContext := ⟨0x0404, ⟨⟨⟨[(⟨.ClearPreedit, 'a', 'a'⟩, 0)], 0⟩⟩, some 9⟩⟩

/-- Sample overlay-style context owning window 5 with a scripted
CommitPreedit('가','ㄴ') result that leaves 'ㄴ' buffered. -/
def icCP : InputContext :=
  ⟨0x0404, ⟨⟨⟨[(⟨.CommitPreedit, '가', 'ㄴ'⟩, 0x3134)], 0⟩⟩, some 5⟩⟩

/-- Sample inline-style context (PREEDIT_CALLBACKS | STATUS_NOTHING) with a
scripted Preedit('ㄱ') result and no window. -/
def icInline : InputContext :=
  ⟨0x0402, ⟨⟨⟨[(⟨.Preedit, 'ㄱ', 'ㄱ'⟩, 0x3131)], 0⟩⟩, none⟩⟩

theorem regFind_insert_self (r : Registry) (k : Nat) (w : PeWindow) :
    regFind (regInsert r k w) k = some w := by
  induction r with
  | nil => simp [regInsert, regFind]
  | cons p rest ih =>
    obtain ⟨k2, w2⟩ := p
    by_cases hk : k2 = k <;> simp [regInsert, regFind, hk, ih]

theorem regFind_insert_ne (r : Registry) (k : Nat) (w : PeWindow) (k2 : Nat)
    (hne : k ≠ k2) : regFind (regInsert r k w) k2 = regFind r k2 := by
  induction r with
  | nil => simp [regInsert, regFind, hne]
  | cons p rest ih =>
    obtain ⟨k3, w3⟩ := p
    by_cases hk : k3 = k
    · subst hk
      simp [regInsert, regFind, hne]
    · simp [regInsert, regFind, hk, ih]

theorem regFind_erase_self (r : Registry) (k : Nat) :
    regFind (regErase r k) k = none := by
  induction r with
  | nil => simp [regErase, regFind]
  | cons p rest ih =>
    obtain ⟨k2, w2⟩ := p
    by_cases hk : k2 = k <;> simp [regErase, regFind, hk, ih]

theorem regKeys_insert_found (r : Registry) (k : Nat) (w w0 : PeWindow)
    (hf : regFind r k = some w0) : regKeys (regInsert r k w) = regKeys r := by
  induction r with
  | nil => simp [regFind] at hf
  | cons p rest ih =>
    obtain ⟨k2, w2⟩ := p
    by_cases hk : k2 = k
    · subst hk
      simp [regInsert, regKeys]
    · simp only [regFind, hk, if_false] at hf
      simp [regInsert, regKeys, hk] at ih ⊢
      exact ih hf

theorem regInsert_found_same (r : Registry) (k : Nat) (w : PeWindow)
    (hf : regFind r k = some w) : regInsert r k w = r := by
  induction r with
  | nil => simp [regFind] at hf
  | cons p rest ih =>
    obtain ⟨k2, w2⟩ := p
    by_cases hk : k2 = k
    · subst hk
      have hw : w2 = w := by simpa [regFind] using hf
      subst hw
      simp [regInsert]
    · simp only [regFind, hk, if_false] at hf
      simp [regInsert, hk, ih hf]

/-- C10: the connect, set-ic-values, set-focus (focus gain), preedit-start
and caret-move callbacks always succeed and are pure frame: handler and
context are returned unchanged and no output effect is produced; in
particular gaining focus performs no flush. -/
theorem C10_trivial_callbacks_frame (h : KimeHandler) (ic : InputContext) (pos : Int) :
    h.handle_connect = (h, []) ∧
    h.handle_set_ic_values ic = ⟨h, ic, []⟩ ∧
    h.handle_set_focus ic = ⟨h, ic, []⟩ ∧
    h.handle_preedit_start ic = ⟨h, ic, []⟩ ∧
    h.handle_caret ic pos = ⟨h, ic, []⟩ :=
  ⟨rfl, rfl, rfl, rfl, rfl⟩

/-- C9: the engine adapter `reset` returns the buffered character exactly
when the buffer is non-empty, clears the buffer while leaving the press
script untouched, a second consecutive `reset` returns `none`, and at the
handler level a double `reset` emits no output on the second call — two
consecutive resets never commit two characters. -/
theorem C9_engine_reset_idempotent (e : InputEngine) (h : KimeHandler) (ic : InputContext) :
    (e.reset.1 = if e.engine.buf = 0 then none else some (Char.ofNat e.engine.buf)) ∧
    (e.reset.2.engine = ⟨e.engine.script, 0⟩) ∧
    (e.reset.2.reset.1 = none) ∧
    (((h.reset ic).handler.reset (h.reset ic).ic).out = []) := by
  obtain ⟨⟨s, b⟩⟩ := e
  refine ⟨?_, ?_, ?_, ?_⟩
  · cases b <;> simp [InputEngine.reset, kime_engine_reset]
  · cases b <;> simp [InputEngine.reset, kime_engine_reset]
  · cases b <;> simp [InputEngine.reset, kime_engine_reset]
  · obtain ⟨style, ⟨⟨⟨s2, b2⟩⟩, pe⟩⟩ := ic
    cases b2 with
    | zero => simp [KimeHandler.reset, InputEngine.reset, kime_engine_reset]
    | succ n =>
      cases pe with
      | none =>
        simp [KimeHandler.reset, InputEngine.reset, kime_engine_reset,
          KimeHandler.clear_preedit, KimeHandler.commit]
      | some id =>
        cases hf : regFind h.preedit_windows id <;>
          simp [KimeHandler.reset, InputEngine.reset, kime_engine_reset,
            KimeHandler.clear_preedit, KimeHandler.commit, hf]

/-- C2 (amended): the explicit reset callback resets the engine and answers
synchronously with the flushed character (or the empty string), but emits no
commit and does not touch the preedit: registry, window reference and trace
are unchanged. -/
theorem C2_reset_ic_reply (h : KimeHandler) (ic : InputContext) :
    h.handle_reset_ic ic =
      (⟨h,
        { ic with user_data :=
            { ic.user_data with engine := ⟨⟨ic.user_data.engine.engine.script, 0⟩⟩ } },
        []⟩,
       if ic.user_data.engine.engine.buf = 0 then ""
       else String.mk [Char.ofNat ic.user_data.engine.engine.buf]) := by
  obtain ⟨style, ⟨⟨⟨s, b⟩⟩, pe⟩⟩ := ic
  cases b <;> simp [KimeHandler.handle_reset_ic, InputEngine.reset, kime_engine_reset]

/-- C2 counterexample: on a context owning preedit window 5 with buffered
'ㄴ', the reset callback answers "ㄴ" — a character was flushed — yet the
window reference and the registry entry survive: the preedit is not cleared
and the context does not go Idle, refuting the claim as stated. -/
theorem C2_reset_ic_counterexample :
    (hWith5.handle_reset_ic icOwn5).2 = "ㄴ" ∧
    (hWith5.handle_reset_ic icOwn5).1.ic.user_data.pe = some 5 ∧
    (hWith5.handle_reset_ic icOwn5).1.handler.preedit_windows = [(5, ⟨5, some 'ㄴ'⟩)] ∧
    ¬((hWith5.handle_reset_ic icOwn5).1.ic.user_data.pe = none) := by
  decide

/-- C5: destroying a context that owns a preedit window removes exactly that
window from the registry and cleans it synchronously; the trace holds no
commit, so any buffered composition is discarded without a flush. -/
theorem C5_destroy_ic (h : KimeHandler) (ic : InputContext) (id : Nat) (w : PeWindow)
    (hpe : ic.user_data.pe = some id)
    (hf : regFind h.preedit_windows id = some w) :
    h.handle_destory_ic ic =
      some ({ h with preedit_windows := regErase h.preedit_windows id }, [Eff.clean id]) ∧
    regFind (regErase h.preedit_windows id) id = none ∧
    (∀ c, Eff.commit c ∉ [Eff.clean id]) := by
  refine ⟨?_, regFind_erase_self _ _, by simp⟩
  simp [KimeHandler.handle_destory_ic, hpe, hf]

/-- C5 witness: concrete destruction of the context owning window 5. -/
theorem C5_destroy_ic_witness :
    icOwn5.user_data.pe = some 5 ∧
    regFind hWith5.preedit_windows 5 = some ⟨5, some 'ㄴ'⟩ ∧
    (hWith5.handle_destory_ic icOwn5 =
        some ({ hWith5 with preedit_windows := regErase hWith5.preedit_windows 5 },
              [Eff.clean 5]) ∧
      regFind (regErase hWith5.preedit_windows 5) 5 = none ∧
      (∀ c, Eff.commit c ∉ [Eff.clean 5])) :=
  ⟨rfl, rfl, C5_destroy_ic hWith5 icOwn5 5 ⟨5, some 'ㄴ'⟩ rfl rfl⟩

/-- C8 (amended): when a context claims a window absent from the registry,
the preedit-update path and context destruction fail fast (they unwrap the
lookup), but `clear_preedit` is a benign no-op: it drops the stale reference
and continues without cleaning anything. -/
theorem C8_registry_miss_paths (h : KimeHandler) (ic : InputContext) (id : Nat)
    (ch : Char) (fresh : Nat)
    (hpe : ic.user_data.pe = some id)
    (hf : regFind h.preedit_windows id = none) :
    (styleContains ic.input_style InputStyle.PREEDIT_CALLBACKS = false →
      h.preedit ic ch fresh = none) ∧
    h.handle_destory_ic ic = none ∧
    h.clear_preedit ic =
      ⟨h, { ic with user_data := { ic.user_data with pe := none } }, []⟩ := by
  refine ⟨fun hstyle => ?_, ?_, ?_⟩
  · simp [KimeHandler.preedit, hpe, hf, hstyle]
  · simp [KimeHandler.handle_destory_ic, hpe, hf]
  · simp [KimeHandler.clear_preedit, hpe, hf]

/-- C8 witness: the fail-fast and no-op paths at a concrete dangling
reference (window 9 missing from the empty registry). -/
theorem C8_registry_miss_paths_witness :
    icGhost.user_data.pe = some 9 ∧
    regFind hEmpty.preedit_windows 9 = none ∧
    ((styleContains icGhost.input_style InputStyle.PREEDIT_CALLBACKS = false →
        hEmpty.preedit icGhost 'ㄱ' 7 = none) ∧
      hEmpty.handle_destory_ic icGhost = none ∧
      hEmpty.clear_preedit icGhost =
        ⟨hEmpty, { icGhost with user_data := { icGhost.user_data with pe := none } }, []⟩) :=
  ⟨rfl, rfl, C8_registry_miss_paths hEmpty icGhost 9 'ㄱ' 7 rfl rfl⟩

/-- C8 counterexample: a key press whose engine result is ClearPreedit, on a
context with a dangling window reference, runs to completion through
`clear_preedit` and returns consumed — the handler continues instead of
failing fast, refuting the claim that every dereferencing path is fatal. -/
theorem C8_registry_miss_counterexample :
    hEmpty.handle_forward_event icGhost ⟨2, 10, 0⟩ 7 =
      some (⟨hEmpty, ⟨0x0404, ⟨⟨⟨[], 0⟩⟩, none⟩⟩, []⟩, true) := by
  decide

/-- C7: a key-release event is bypassed (not consumed) with handler,
context, engine and trace untouched, and a whole sequence of key-release
events leaves the state exactly as it was. -/
theorem C7_key_release_frame (h : KimeHandler) (ic : InputContext) (xev : KeyPressEvent)
    (fresh : Nat) (evs : List Event)
    (hrel : xev.response_type ≠ KEY_PRESS_EVENT)
    (hall : ∀ e ∈ evs, e.isRelease = true) :
    h.handle_forward_event ic xev fresh = some (⟨h, ic, []⟩, false) ∧
    runEvents h ic evs = some ⟨h, ic, []⟩ := by
  constructor
  · simp [KimeHandler.handle_forward_event, hrel]
  · induction evs with
    | nil => rfl
    | cons e rest ih =>
      have he := hall e (List.mem_cons_self e rest)
      cases e <;> simp [Event.isRelease] at he
      case forward xe fr =>
        have hstep : stepEvent h ic (Event.forward xe fr) = some ⟨h, ic, []⟩ := by
          simp [stepEvent, KimeHandler.handle_forward_event, he]
        have hrest := ih (fun e2 he2 => hall e2 (List.mem_cons_of_mem _ he2))
        simp [runEvents, hstep, hrest]

/-- C7 witness: two concrete release events on the sample state. -/
theorem C7_key_release_frame_witness :
    (⟨3, 10, 0⟩ : KeyPressEvent).response_type ≠ KEY_PRESS_EVENT ∧
    (∀ e ∈ [Event.forward ⟨3, 10, 0⟩ 1, Event.forward ⟨3, 11, 4⟩ 2],
      e.isRelease = true) ∧
    (hWith5.handle_forward_event icOwn5 ⟨3, 10, 0⟩ 1 = some (⟨hWith5, icOwn5, []⟩, false) ∧
      runEvents hWith5 icOwn5 [Event.forward ⟨3, 10, 0⟩ 1, Event.forward ⟨3, 11, 4⟩ 2] =
        some ⟨hWith5, icOwn5, []⟩) :=
  ⟨by decide, by decide,
    C7_key_release_frame hWith5 icOwn5 ⟨3, 10, 0⟩ 1
      [Event.forward ⟨3, 10, 0⟩ 1, Event.forward ⟨3, 11, 4⟩ 2] (by decide) (by decide)⟩

/-- C3: out-of-band reset triggers.  Losing focus runs `reset`; a key press
whose modifier bits go beyond a lone shift runs `reset` and reports the key
as not consumed, never consulting `press_key` (the engine script is
untouched — `reset` only clears the buffer).  `reset` itself flushes first:
with an empty buffer nothing happens; with a buffered character the preedit
is cleared (window removed and cleaned when owned) and the character is
committed. -/
theorem C3_out_of_band_reset (h : KimeHandler) (ic : InputContext) (xev : KeyPressEvent)
    (fresh : Nat) (hinv : handlerInv h ic = true) :
    (h.handle_unset_focus ic = h.reset ic) ∧
    (xev.response_type = KEY_PRESS_EVENT → xev.state &&& 0xFFFE ≠ 0 →
      h.handle_forward_event ic xev fresh = some (h.reset ic, false)) ∧
    ((h.reset ic).ic.user_data.engine = ⟨⟨ic.user_data.engine.engine.script, 0⟩⟩) ∧
    (ic.user_data.engine.engine.buf = 0 →
      h.reset ic =
        ⟨h,
         { ic with user_data :=
             { ic.user_data with engine := ⟨⟨ic.user_data.engine.engine.script, 0⟩⟩ } },
         []⟩) ∧
    (ic.user_data.engine.engine.buf ≠ 0 → ic.user_data.pe = none →
      h.reset ic =
        ⟨h,
         { ic with user_data :=
             { ic.user_data with engine := ⟨⟨ic.user_data.engine.engine.script, 0⟩⟩ } },
         [Eff.commit (Char.ofNat ic.user_data.engine.engine.buf)]⟩) ∧
    (∀ id, ic.user_data.engine.engine.buf ≠ 0 → ic.user_data.pe = some id →
      h.reset ic =
        ⟨{ h with preedit_windows := regErase h.preedit_windows id },
         { ic with user_data :=
             { engine := ⟨⟨ic.user_data.engine.engine.script, 0⟩⟩, pe := none } },
         [Eff.clean id, Eff.commit (Char.ofNat ic.user_data.engine.engine.buf)]⟩) := by
  obtain ⟨style, ⟨⟨⟨s, b⟩⟩, pe⟩⟩ := ic
  refine ⟨rfl, ?_, ?_, ?_, ?_, ?_⟩
  · intro hp hm
    simp [KimeHandler.handle_forward_event, hp, hm]
  · cases b with
    | zero => simp [KimeHandler.reset, InputEngine.reset, kime_engine_reset]
    | succ n =>
      cases pe with
      | none =>
        simp [KimeHandler.reset, InputEngine.reset, kime_engine_reset,
          KimeHandler.clear_preedit, KimeHandler.commit]
      | some id =>
        simp only [handlerInv] at hinv
        obtain ⟨w, hw⟩ := Option.isSome_iff_exists.mp hinv
        simp [KimeHandler.reset, InputEngine.reset, kime_engine_reset,
          KimeHandler.clear_preedit, KimeHandler.commit, hw]
  · intro hb
    cases b with
    | zero => simp [KimeHandler.reset, InputEngine.reset, kime_engine_reset]
    | succ n => simp at hb
  · intro hb hpe
    cases pe with
    | some id => simp at hpe
    | none =>
      cases b with
      | zero => simp at hb
      | succ n =>
        simp [KimeHandler.reset, InputEngine.reset, kime_engine_reset,
          KimeHandler.clear_preedit, KimeHandler.commit]
  · intro id hb hpe
    cases pe with
    | none => simp at hpe
    | some id2 =>
      have hid : id2 = id := by simpa using hpe
      subst hid
      cases b with
      | zero => simp at hb
      | succ n =>
        simp only [handlerInv] at hinv
        obtain ⟨w, hw⟩ := Option.isSome_iff_exists.mp hinv
        simp [KimeHandler.reset, InputEngine.reset, kime_engine_reset,
          KimeHandler.clear_preedit, KimeHandler.commit, hw]

/-- C3 witness: concrete flush-then-forward on the sample state owning
window 5 with 'ㄴ' (codepoint 0x3134) buffered, for a control-modified key
press. -/
theorem C3_out_of_band_reset_witness :
    handlerInv hWith5 icOwn5 = true ∧
    ((hWith5.handle_unset_focus icOwn5 = hWith5.reset icOwn5) ∧
      ((⟨2, 10, 4⟩ : KeyPressEvent).response_type = KEY_PRESS_EVENT →
        (⟨2, 10, 4⟩ : KeyPressEvent).state &&& 0xFFFE ≠ 0 →
        hWith5.handle_forward_event icOwn5 ⟨2, 10, 4⟩ 7 =
          some (hWith5.reset icOwn5, false)) ∧
      ((hWith5.reset icOwn5).ic.user_data.engine =
        ⟨⟨icOwn5.user_data.engine.engine.script, 0⟩⟩) ∧
      (icOwn5.user_data.engine.engine.buf = 0 →
        hWith5.reset icOwn5 =
          ⟨hWith5,
           { icOwn5 with user_data :=
               { icOwn5.user_data with engine :=
                   ⟨⟨icOwn5.user_data.engine.engine.script, 0⟩⟩ } },
           []⟩) ∧
      (icOwn5.user_data.engine.engine.buf ≠ 0 → icOwn5.user_data.pe = none →
        hWith5.reset icOwn5 =
          ⟨hWith5,
           { icOwn5 with user_data :=
               { icOwn5.user_data with engine :=
                   ⟨⟨icOwn5.user_data.engine.engine.script, 0⟩⟩ } },
           [Eff.commit (Char.ofNat icOwn5.user_data.engine.engine.buf)]⟩) ∧
      (∀ id, icOwn5.user_data.engine.engine.buf ≠ 0 → icOwn5.user_data.pe = some id →
        hWith5.reset icOwn5 =
          ⟨{ hWith5 with preedit_windows := regErase hWith5.preedit_windows id },
           { icOwn5 with user_data :=
               { engine := ⟨⟨icOwn5.user_data.engine.engine.script, 0⟩⟩, pe := none } },
           [Eff.clean id, Eff.commit (Char.ofNat icOwn5.user_data.engine.engine.buf)]⟩)) :=
  ⟨by decide, C3_out_of_band_reset hWith5 icOwn5 ⟨2, 10, 4⟩ 7 (by decide)⟩

theorem specShowPreedit_eq_preedit (h : KimeHandler) (ic : InputContext) (ch : Char)
    (fresh : Nat) : specShowPreedit h ic ch fresh = h.preedit ic ch fresh := by
  by_cases hs : styleContains ic.input_style InputStyle.PREEDIT_CALLBACKS = true
  · simp [specShowPreedit, KimeHandler.preedit, hs]
  · cases hpe : ic.user_data.pe with
    | none =>
      simp [specShowPreedit, KimeHandler.preedit, hs, hpe, PeWindow.new,
        PeWindow.set_preedit]
    | some id =>
      cases hf : regFind h.preedit_windows id <;>
        simp [specShowPreedit, KimeHandler.preedit, hs, hpe, hf]

theorem specDropPreedit_eq_clear (h : KimeHandler) (ic : InputContext)
    (hinv : handlerInv h ic = true) :
    specDropPreedit h ic = some (h.clear_preedit ic) := by
  cases hpe : ic.user_data.pe with
  | none => simp [specDropPreedit, KimeHandler.clear_preedit, hpe]
  | some id =>
    simp only [handlerInv, hpe] at hinv
    obtain ⟨w, hw⟩ := Option.isSome_iff_exists.mp hinv
    simp [specDropPreedit, KimeHandler.clear_preedit, hpe, hw]

/-- C1: for a key press carrying at most a lone shift modifier, the handler
reacts to the engine result exactly as the §4.1 table prescribes (the
reaction acting on the context as left by the engine's consumption of the
keystroke). -/
theorem C1_forward_event_table (h : KimeHandler) (ic : InputContext) (xev : KeyPressEvent)
    (fresh : Nat) (r : InputResult) (b : Nat) (rest : List (InputResult × Nat))
    (hpress : xev.response_type = KEY_PRESS_EVENT)
    (hmod : xev.state &&& 0xFFFE = 0)
    (hscript : ic.user_data.engine.engine.script = (r, b) :: rest)
    (hinv : handlerInv h ic = true) :
    h.handle_forward_event ic xev fresh =
      specTableReaction h
        { ic with user_data := { ic.user_data with engine := ⟨⟨rest, b⟩⟩ } } r fresh := by
  obtain ⟨style, ⟨⟨⟨s0, b0⟩⟩, pe⟩⟩ := ic
  obtain ⟨ty, c1, c2⟩ := r
  have hs0 : s0 = (⟨ty, c1, c2⟩, b) :: rest := by simpa using hscript
  subst hs0
  have hinv1 : handlerInv h ⟨style, ⟨⟨⟨rest, b⟩⟩, pe⟩⟩ = true := by
    cases hpe : pe <;> simp_all [handlerInv]
  cases ty
  case Bypass =>
    simp [KimeHandler.handle_forward_event, hpress, hmod, InputEngine.press_key,
      kime_engine_press_key, specTableReaction]
  case Consume =>
    simp [KimeHandler.handle_forward_event, hpress, hmod, InputEngine.press_key,
      kime_engine_press_key, specTableReaction]
  case ClearPreedit =>
    simp [KimeHandler.handle_forward_event, hpress, hmod, InputEngine.press_key,
      kime_engine_press_key, specTableReaction, specDropPreedit_eq_clear _ _ hinv1]
  case CommitBypass =>
    simp [KimeHandler.handle_forward_event, hpress, hmod, InputEngine.press_key,
      kime_engine_press_key, specTableReaction, specDropPreedit_eq_clear _ _ hinv1,
      KimeHandler.commit]
  case Commit =>
    simp [KimeHandler.handle_forward_event, hpress, hmod, InputEngine.press_key,
      kime_engine_press_key, specTableReaction, specDropPreedit_eq_clear _ _ hinv1,
      KimeHandler.commit]
  case CommitCommit =>
    simp [KimeHandler.handle_forward_event, hpress, hmod, InputEngine.press_key,
      kime_engine_press_key, specTableReaction, specDropPreedit_eq_clear _ _ hinv1,
      KimeHandler.commit]
  case CommitPreedit =>
    cases hp : KimeHandler.preedit h ⟨style, ⟨⟨⟨rest, b⟩⟩, pe⟩⟩ c2 fresh <;>
      simp [KimeHandler.handle_forward_event, hpress, hmod, InputEngine.press_key,
        kime_engine_press_key, specTableReaction, specShowPreedit_eq_preedit,
        KimeHandler.commit, hp]
  case Preedit =>
    cases hp : KimeHandler.preedit h ⟨style, ⟨⟨⟨rest, b⟩⟩, pe⟩⟩ c1 fresh <;>
      simp [KimeHandler.handle_forward_event, hpress, hmod, InputEngine.press_key,
        kime_engine_press_key, specTableReaction, specShowPreedit_eq_preedit,
        KimeHandler.commit, hp]

/-- C1 witness: the sample context owning window 5 with a scripted
CommitPreedit('가','ㄴ') result, under a plain (shift-free) key press. -/
theorem C1_forward_event_table_witness :
    (⟨2, 10, 0⟩ : KeyPressEvent).response_type = KEY_PRESS_EVENT ∧
    (⟨2, 10, 0⟩ : KeyPressEvent).state &&& 0xFFFE = 0 ∧
    icCP.user_data.engine.engine.script = [(⟨.CommitPreedit, '가', 'ㄴ'⟩, 0x3134)] ∧
    handlerInv hWith5 icCP = true ∧
    hWith5.handle_forward_event icCP ⟨2, 10, 0⟩ 7 =
      specTableReaction hWith5
        { icCP with user_data := { icCP.user_data with engine := ⟨⟨[], 0x3134⟩⟩ } }
        ⟨.CommitPreedit, '가', 'ㄴ'⟩ 7 :=
  ⟨rfl, rfl, rfl, by decide,
    C1_forward_event_table hWith5 icCP ⟨2, 10, 0⟩ 7 ⟨.CommitPreedit, '가', 'ㄴ'⟩ 0x3134 []
      rfl rfl rfl (by decide)⟩

theorem expose_eq_self (h : KimeHandler) (w : Nat) : h.expose w = h := by
  unfold KimeHandler.expose
  by_cases hw : w ≠ 0
  · rw [if_pos hw]
    cases hf : regFind h.preedit_windows w with
    | none => simp [hf]
    | some w0 => simp [hf, PeWindow.expose, regInsert_found_same _ _ _ hf]
  · rw [if_neg hw]

theorem configure_notify_eq_self (h : KimeHandler) (w : Nat) : h.configure_notify w = h := by
  unfold KimeHandler.configure_notify
  by_cases hw : w ≠ 0
  · rw [if_pos hw]
    cases hf : regFind h.preedit_windows w with
    | none => simp [hf]
    | some w0 => simp [hf, PeWindow.configure_notify, regInsert_found_same _ _ _ hf]
  · rw [if_neg hw]

theorem handlerInv_preedit (h : KimeHandler) (ic : InputContext) (ch : Char) (fresh : Nat)
    (s : HandlerStep) (hinv : handlerInv h ic = true)
    (hs : h.preedit ic ch fresh = some s) :
    handlerInv s.handler s.ic = true := by
  by_cases hst : styleContains ic.input_style InputStyle.PREEDIT_CALLBACKS = true
  · simp only [KimeHandler.preedit, hst, if_true, Option.some.injEq] at hs
    subst hs
    simpa using hinv
  · cases hpe : ic.user_data.pe with
    | some id =>
      cases hf : regFind h.preedit_windows id with
      | none => simp [KimeHandler.preedit, hst, hpe, hf] at hs
      | some w =>
        simp only [KimeHandler.preedit, hst, hpe, hf, if_false, Bool.false_eq_true,
          Option.some.injEq] at hs
        subst hs
        simp [handlerInv, hpe, regFind_insert_self]
    | none =>
      simp only [KimeHandler.preedit, hst, hpe, if_false, Bool.false_eq_true,
        Option.some.injEq] at hs
      subst hs
      simp [handlerInv, regFind_insert_self]

theorem handlerInv_clear (h : KimeHandler) (ic : InputContext) :
    handlerInv (h.clear_preedit ic).handler (h.clear_preedit ic).ic = true := by
  cases hpe : ic.user_data.pe with
  | none => simp [KimeHandler.clear_preedit, hpe, handlerInv]
  | some id =>
    cases hf : regFind h.preedit_windows id <;>
      simp [KimeHandler.clear_preedit, hpe, hf, handlerInv]

theorem handlerInv_reset (h : KimeHandler) (ic : InputContext)
    (hinv : handlerInv h ic = true) :
    handlerInv (h.reset ic).handler (h.reset ic).ic = true := by
  obtain ⟨style, ⟨⟨⟨s0, b0⟩⟩, pe⟩⟩ := ic
  cases b0 with
  | zero =>
    cases pe <;>
      simp_all [KimeHandler.reset, InputEngine.reset, kime_engine_reset, handlerInv]
  | succ n =>
    cases pe with
    | none =>
      simp [KimeHandler.reset, InputEngine.reset, kime_engine_reset,
        KimeHandler.clear_preedit, KimeHandler.commit, handlerInv]
    | some id =>
      simp only [handlerInv] at hinv
      obtain ⟨w, hw⟩ := Option.isSome_iff_exists.mp hinv
      simp [KimeHandler.reset, InputEngine.reset, kime_engine_reset,
        KimeHandler.clear_preedit, KimeHandler.commit, handlerInv, hw]

theorem handlerInv_forward (h : KimeHandler) (ic : InputContext) (xev : KeyPressEvent)
    (fresh : Nat) (s : HandlerStep) (cons : Bool)
    (hinv : handlerInv h ic = true)
    (hs : h.handle_forward_event ic xev fresh = some (s, cons)) :
    handlerInv s.handler s.ic = true := by
  by_cases hrt : xev.response_type ≠ KEY_PRESS_EVENT
  · simp only [KimeHandler.handle_forward_event, if_pos hrt, Option.some.injEq,
      Prod.mk.injEq] at hs
    obtain ⟨hs1, hs2⟩ := hs
    subst hs1
    simpa using hinv
  · by_cases hms : xev.state &&& 0xFFFE ≠ 0
    · simp only [KimeHandler.handle_forward_event, if_neg hrt, if_pos hms,
        Option.some.injEq, Prod.mk.injEq] at hs
      obtain ⟨hs1, hs2⟩ := hs
      subst hs1
      exact handlerInv_reset h ic hinv
    · obtain ⟨style, ⟨⟨⟨s0, b0⟩⟩, pe⟩⟩ := ic
      rcases s0 with _ | ⟨⟨⟨ty, c1, c2⟩, b⟩, rest⟩
      · simp only [KimeHandler.handle_forward_event, if_neg hrt, if_neg hms,
          InputEngine.press_key, kime_engine_press_key, Option.some.injEq,
          Prod.mk.injEq] at hs
        obtain ⟨hs1, hs2⟩ := hs
        subst hs1
        cases hpe : pe <;> simp_all [handlerInv]
      · have hinv1 : handlerInv h ⟨style, ⟨⟨⟨rest, b⟩⟩, pe⟩⟩ = true := by
          cases hpe : pe <;> simp_all [handlerInv]
        cases ty with
        | Bypass =>
          simp only [KimeHandler.handle_forward_event, if_neg hrt, if_neg hms,
            InputEngine.press_key, kime_engine_press_key, Option.some.injEq,
            Prod.mk.injEq] at hs
          obtain ⟨hs1, hs2⟩ := hs
          subst hs1
          simpa using hinv1
        | Consume =>
          simp only [KimeHandler.handle_forward_event, if_neg hrt, if_neg hms,
            InputEngine.press_key, kime_engine_press_key, Option.some.injEq,
            Prod.mk.injEq] at hs
          obtain ⟨hs1, hs2⟩ := hs
          subst hs1
          simpa using hinv1
        | ClearPreedit =>
          simp only [KimeHandler.handle_forward_event, if_neg hrt, if_neg hms,
            InputEngine.press_key, kime_engine_press_key, Option.some.injEq,
            Prod.mk.injEq] at hs
          obtain ⟨hs1, hs2⟩ := hs
          subst hs1
          exact handlerInv_clear h _
        | CommitBypass =>
          simp only [KimeHandler.handle_forward_event, if_neg hrt, if_neg hms,
            InputEngine.press_key, kime_engine_press_key, KimeHandler.commit,
            Option.some.injEq, Prod.mk.injEq] at hs
          obtain ⟨hs1, hs2⟩ := hs
          subst hs1
          simpa using handlerInv_clear h ⟨style, ⟨⟨⟨rest, b⟩⟩, pe⟩⟩
        | Commit =>
          simp only [KimeHandler.handle_forward_event, if_neg hrt, if_neg hms,
            InputEngine.press_key, kime_engine_press_key, KimeHandler.commit,
            Option.some.injEq, Prod.mk.injEq] at hs
          obtain ⟨hs1, hs2⟩ := hs
          subst hs1
          simpa using handlerInv_clear h ⟨style, ⟨⟨⟨rest, b⟩⟩, pe⟩⟩
        | CommitCommit =>
          simp only [KimeHandler.handle_forward_event, if_neg hrt, if_neg hms,
            InputEngine.press_key, kime_engine_press_key, KimeHandler.commit,
            Option.some.injEq, Prod.mk.injEq] at hs
          obtain ⟨hs1, hs2⟩ := hs
          subst hs1
          simpa using handlerInv_clear h ⟨style, ⟨⟨⟨rest, b⟩⟩, pe⟩⟩
        | CommitPreedit =>
          cases hp : KimeHandler.preedit h ⟨style, ⟨⟨⟨rest, b⟩⟩, pe⟩⟩ c2 fresh with
          | none =>
            simp [KimeHandler.handle_forward_event, if_neg hrt, if_neg hms,
              InputEngine.press_key, kime_engine_press_key, KimeHandler.commit, hp] at hs
          | some s2 =>
            simp only [KimeHandler.handle_forward_event, if_neg hrt, if_neg hms,
              InputEngine.press_key, kime_engine_press_key, KimeHandler.commit, hp,
              Option.some.injEq, Prod.mk.injEq] at hs
            obtain ⟨hs1, hs2⟩ := hs
            subst hs1
            simpa using handlerInv_preedit h _ c2 fresh s2 hinv1 hp
        | Preedit =>
          cases hp : KimeHandler.preedit h ⟨style, ⟨⟨⟨rest, b⟩⟩, pe⟩⟩ c1 fresh with
          | none =>
            simp [KimeHandler.handle_forward_event, if_neg hrt, if_neg hms,
              InputEngine.press_key, kime_engine_press_key, hp] at hs
          | some s2 =>
            simp only [KimeHandler.handle_forward_event, if_neg hrt, if_neg hms,
              InputEngine.press_key, kime_engine_press_key, hp,
              Option.some.injEq, Prod.mk.injEq] at hs
            obtain ⟨hs1, hs2⟩ := hs
            subst hs1
            exact handlerInv_preedit h _ c1 fresh s2 hinv1 hp

theorem handlerInv_step (h : KimeHandler) (ic : InputContext) (e : Event) (s : HandlerStep)
    (hinv : handlerInv h ic = true) (hs : stepEvent h ic e = some s) :
    handlerInv s.handler s.ic = true := by
  cases e with
  | connect =>
    simp only [stepEvent, Option.some.injEq] at hs
    subst hs
    simpa [KimeHandler.handle_connect] using hinv
  | createIc =>
    simp only [stepEvent, KimeHandler.handle_create_ic, Option.some.injEq] at hs
    subst hs
    simpa using hinv
  | setIcValues =>
    simp only [stepEvent, KimeHandler.handle_set_ic_values, Option.some.injEq] at hs
    subst hs
    simpa using hinv
  | resetIc =>
    obtain ⟨style, ⟨⟨⟨s0, b0⟩⟩, pe⟩⟩ := ic
    simp only [stepEvent, Option.some.injEq] at hs
    subst hs
    cases b0 <;> cases hpe : pe <;>
      simp_all [KimeHandler.handle_reset_ic, InputEngine.reset, kime_engine_reset,
        handlerInv]
  | forward xev fresh =>
    simp only [stepEvent, Option.map_eq_some'] at hs
    obtain ⟨⟨s1, cons⟩, hfe, hfst⟩ := hs
    cases hfst
    exact handlerInv_forward h ic xev fresh s1 cons hinv hfe
  | setFocus =>
    simp only [stepEvent, KimeHandler.handle_set_focus, Option.some.injEq] at hs
    subst hs
    simpa using hinv
  | unsetFocus =>
    simp only [stepEvent, KimeHandler.handle_unset_focus, Option.some.injEq] at hs
    subst hs
    exact handlerInv_reset h ic hinv
  | preeditStart =>
    simp only [stepEvent, KimeHandler.handle_preedit_start, Option.some.injEq] at hs
    subst hs
    simpa using hinv
  | caret pos =>
    simp only [stepEvent, KimeHandler.handle_caret, Option.some.injEq] at hs
    subst hs
    simpa using hinv
  | exposeWin w =>
    simp only [stepEvent, Option.some.injEq] at hs
    subst hs
    simpa [expose_eq_self] using hinv
  | configNotify w =>
    simp only [stepEvent, Option.some.injEq] at hs
    subst hs
    simpa [configure_notify_eq_self] using hinv

/-- C4: the one-window-per-context invariant is preserved by every handler
operation: from a consistent state (the claimed window, if any, is in the
registry) every successful event step is consistent again; and a
Preedit/CommitPreedit update on a context that already owns a window
rewrites that same window in place — same key, same key set — never
creating a second one. -/
theorem C4_at_most_one_window (h : KimeHandler) (ic : InputContext)
    (hinv : handlerInv h ic = true) :
    (∀ e s, stepEvent h ic e = some s → handlerInv s.handler s.ic = true) ∧
    (∀ ch fresh id, ic.user_data.pe = some id →
      styleContains ic.input_style InputStyle.PREEDIT_CALLBACKS = false →
      ∃ w, regFind h.preedit_windows id = some w ∧
        h.preedit ic ch fresh =
          some ⟨{ h with
              preedit_windows := regInsert h.preedit_windows id (w.set_preedit ch) },
            ic, []⟩ ∧
        regKeys (regInsert h.preedit_windows id (w.set_preedit ch)) =
          regKeys h.preedit_windows) := by
  constructor
  · intro e s hs
    exact handlerInv_step h ic e s hinv hs
  · intro ch fresh id hpe hst
    simp only [handlerInv, hpe] at hinv
    obtain ⟨w, hw⟩ := Option.isSome_iff_exists.mp hinv
    refine ⟨w, hw, ?_, regKeys_insert_found _ _ _ _ hw⟩
    simp [KimeHandler.preedit, hst, hpe, hw]

/-- C4 witness: the sample consistent state owning window 5. -/
theorem C4_at_most_one_window_witness :
    handlerInv hWith5 icOwn5 = true ∧
    ((∀ e s, stepEvent hWith5 icOwn5 e = some s → handlerInv s.handler s.ic = true) ∧
      (∀ ch fresh id, icOwn5.user_data.pe = some id →
        styleContains icOwn5.input_style InputStyle.PREEDIT_CALLBACKS = false →
        ∃ w, regFind hWith5.preedit_windows id = some w ∧
          hWith5.preedit icOwn5 ch fresh =
            some ⟨{ hWith5 with
                preedit_windows := regInsert hWith5.preedit_windows id (w.set_preedit ch) },
              icOwn5, []⟩ ∧
          regKeys (regInsert hWith5.preedit_windows id (w.set_preedit ch)) =
            regKeys hWith5.preedit_windows)) :=
  ⟨by decide, C4_at_most_one_window hWith5 icOwn5 (by decide)⟩

theorem stepEvent_inline (h : KimeHandler) (ic : InputContext) (e : Event)
    (hst : styleContains ic.input_style InputStyle.PREEDIT_CALLBACKS = true)
    (hpe : ic.user_data.pe = none) :
    ∃ s, stepEvent h ic e = some s ∧
      s.handler.preedit_windows = h.preedit_windows ∧
      s.ic.input_style = ic.input_style ∧
      s.ic.user_data.pe = none ∧
      (∀ id, Eff.createWindow id ∉ s.out) := by
  obtain ⟨style, ⟨⟨⟨s0, b0⟩⟩, pe⟩⟩ := ic
  have hpe2 : pe = none := hpe
  subst hpe2
  have hst2 : styleContains style InputStyle.PREEDIT_CALLBACKS = true := hst
  cases e with
  | connect => exact ⟨_, rfl, rfl, rfl, rfl, by simp [KimeHandler.handle_connect]⟩
  | createIc => exact ⟨_, rfl, rfl, rfl, rfl, by simp [KimeHandler.handle_create_ic]⟩
  | setIcValues => exact ⟨_, rfl, rfl, rfl, rfl, by simp [KimeHandler.handle_set_ic_values]⟩
  | resetIc =>
    cases b0 <;> exact ⟨_, rfl, rfl, rfl, rfl,
      by simp [KimeHandler.handle_reset_ic, InputEngine.reset, kime_engine_reset]⟩
  | setFocus => exact ⟨_, rfl, rfl, rfl, rfl, by simp [KimeHandler.handle_set_focus]⟩
  | unsetFocus =>
    cases b0 <;> exact ⟨_, rfl, rfl, rfl, rfl,
      by simp [KimeHandler.handle_unset_focus, KimeHandler.reset, InputEngine.reset,
        kime_engine_reset, KimeHandler.clear_preedit, KimeHandler.commit]⟩
  | preeditStart => exact ⟨_, rfl, rfl, rfl, rfl, by simp [KimeHandler.handle_preedit_start]⟩
  | caret pos => exact ⟨_, rfl, rfl, rfl, rfl, by simp [KimeHandler.handle_caret]⟩
  | exposeWin w =>
    exact ⟨_, rfl, by simp [expose_eq_self], rfl, rfl, by simp⟩
  | configNotify w =>
    exact ⟨_, rfl, by simp [configure_notify_eq_self], rfl, rfl, by simp⟩
  | forward xev fresh =>
    by_cases hrt : xev.response_type ≠ KEY_PRESS_EVENT
    · simp only [stepEvent, KimeHandler.handle_forward_event, if_pos hrt,
        Option.map_some']
      exact ⟨_, rfl, rfl, rfl, rfl, by simp⟩
    · by_cases hms : xev.state &&& 0xFFFE ≠ 0
      · simp only [stepEvent, KimeHandler.handle_forward_event, if_neg hrt, if_pos hms,
          Option.map_some']
        cases b0 <;> exact ⟨_, rfl, rfl, rfl, rfl,
          by simp [KimeHandler.reset, InputEngine.reset, kime_engine_reset,
            KimeHandler.clear_preedit, KimeHandler.commit]⟩
      · rcases s0 with _ | ⟨⟨⟨ty, c1, c2⟩, b⟩, rest⟩
        · simp only [stepEvent, KimeHandler.handle_forward_event, if_neg hrt, if_neg hms,
            InputEngine.press_key, kime_engine_press_key, Option.map_some']
          exact ⟨_, rfl, rfl, rfl, rfl, by simp⟩
        · cases ty with
          | Bypass =>
            simp only [stepEvent, KimeHandler.handle_forward_event, if_neg hrt,
              if_neg hms, InputEngine.press_key, kime_engine_press_key, Option.map_some']
            exact ⟨_, rfl, rfl, rfl, rfl, by simp⟩
          | Consume =>
            simp only [stepEvent, KimeHandler.handle_forward_event, if_neg hrt,
              if_neg hms, InputEngine.press_key, kime_engine_press_key, Option.map_some']
            exact ⟨_, rfl, rfl, rfl, rfl, by simp⟩
          | ClearPreedit =>
            simp only [stepEvent, KimeHandler.handle_forward_event, if_neg hrt,
              if_neg hms, InputEngine.press_key, kime_engine_press_key, Option.map_some']
            exact ⟨_, rfl, rfl, rfl, rfl, by simp [KimeHandler.clear_preedit]⟩
          | CommitBypass =>
            simp only [stepEvent, KimeHandler.handle_forward_event, if_neg hrt,
              if_neg hms, InputEngine.press_key, kime_engine_press_key, Option.map_some']
            exact ⟨_, rfl, rfl, rfl, rfl, by simp [KimeHandler.commit,
              KimeHandler.clear_preedit]⟩
          | Commit =>
            simp only [stepEvent, KimeHandler.handle_forward_event, if_neg hrt,
              if_neg hms, InputEngine.press_key, kime_engine_press_key, Option.map_some']
            exact ⟨_, rfl, rfl, rfl, rfl, by simp [KimeHandler.commit,
              KimeHandler.clear_preedit]⟩
          | CommitCommit =>
            simp only [stepEvent, KimeHandler.handle_forward_event, if_neg hrt,
              if_neg hms, InputEngine.press_key, kime_engine_press_key, Option.map_some']
            exact ⟨_, rfl, rfl, rfl, rfl, by simp [KimeHandler.commit,
              KimeHandler.clear_preedit]⟩
          | CommitPreedit =>
            simp only [stepEvent, KimeHandler.handle_forward_event, if_neg hrt,
              if_neg hms, InputEngine.press_key, kime_engine_press_key,
              KimeHandler.preedit, KimeHandler.commit, hst2, if_true, Option.map_some']
            exact ⟨_, rfl, rfl, rfl, rfl, by simp⟩
          | Preedit =>
            simp only [stepEvent, KimeHandler.handle_forward_event, if_neg hrt,
              if_neg hms, InputEngine.press_key, kime_engine_press_key,
              KimeHandler.preedit, hst2, if_true, Option.map_some']
            exact ⟨_, rfl, rfl, rfl, rfl, by simp⟩

/-- C6: for a context negotiated with the preedit-callbacks (inline) style,
every preedit update goes to the client via the preedit-draw primitive, and
over any sequence of events the registry is left exactly as it was, the
context never acquires a window reference, and no window-creation effect is
ever emitted. -/
theorem C6_inline_no_window (h : KimeHandler) (ic : InputContext) (evs : List Event)
    (hst : styleContains ic.input_style InputStyle.PREEDIT_CALLBACKS = true)
    (hpe : ic.user_data.pe = none) :
    (∀ ch fresh, h.preedit ic ch fresh = some ⟨h, ic, [Eff.preeditDraw ch]⟩) ∧
    (∃ s, runEvents h ic evs = some s ∧
      s.handler.preedit_windows = h.preedit_windows ∧
      s.ic.user_data.pe = none ∧
      (∀ id, Eff.createWindow id ∉ s.out)) := by
  constructor
  · intro ch fresh
    simp [KimeHandler.preedit, hst]
  · induction evs generalizing h ic with
    | nil => exact ⟨⟨h, ic, []⟩, rfl, rfl, hpe, by simp⟩
    | cons e rest ih =>
      obtain ⟨s1, hs1, hreg1, hsty1, hpe1, hcw1⟩ := stepEvent_inline h ic e hst hpe
      obtain ⟨s2, hs2, hreg2, hpe2, hcw2⟩ :=
        ih s1.handler s1.ic (by rw [hsty1]; exact hst) hpe1
      refine ⟨⟨s2.handler, s2.ic, s1.out ++ s2.out⟩, ?_, ?_, hpe2, ?_⟩
      · simp [runEvents, hs1, hs2]
      · simpa [hreg2] using hreg1
      · intro id
        simp only [List.mem_append]
        rintro (hmem | hmem)
        · exact hcw1 id hmem
        · exact hcw2 id hmem

/-- C6 witness: the inline sample context with a scripted Preedit('ㄱ')
result, over one plain key press. -/
theorem C6_inline_no_window_witness :
    styleContains icInline.input_style InputStyle.PREEDIT_CALLBACKS = true ∧
    icInline.user_data.pe = none ∧
    ((∀ ch fresh, hEmpty.preedit icInline ch fresh =
        some ⟨hEmpty, icInline, [Eff.preeditDraw ch]⟩) ∧
      (∃ s, runEvents hEmpty icInline [Event.forward ⟨2, 10, 0⟩ 3] = some s ∧
        s.handler.preedit_windows = hEmpty.preedit_windows ∧
        s.ic.user_data.pe = none ∧
        (∀ id, Eff.createWindow id ∉ s.out))) :=
  ⟨by decide, rfl,
    C6_inline_no_window hEmpty icInline [Event.forward ⟨2, 10, 0⟩ 3] (by decide) rfl⟩

end Kime
